import Mathlib

/-!
Shallow embedding of the v2ray-core excerpt (proxy platform): AEAD nonce
generator and authenticated chunk codec (`common/crypto`), mux client/server
(`app/proxyman/mux`), instance lifecycle (`core`), Shadowsocks request codec
(`proxy/shadowsocks`), socks server policy (`proxy/socks`) and the inbound
handler manager (`app/proxyman/inbound`).  Bytes are modelled as `Nat` values
(reduced mod 256 where the code relies on byte overflow); byte slices and
streams are `List Nat`; fallible Go functions return `Except`.
-/

namespace V2Ray

/-! ### AEAD nonce generator (`IncreasingAEADNonceGenerator`)

The Go method increments the 12-byte nonce little-endian in place and returns
it:

    for i := range g.nonce {
        g.nonce[i]++
        if g.nonce[i] != 0 { break }
    }
    return g.nonce
-/

/-- One in-place little-endian increment over a byte list:
increment the first byte; on wrap to zero, carry into the rest. -/
def incLE : List Nat → List Nat
  | [] => []
  | b :: rest =>
    if (b + 1) % 256 = 0 then (b + 1) % 256 :: incLE rest
    else (b + 1) % 256 :: rest

/-- The seed installed by `NewIncreasingAEADNonceGenerator`: 12 bytes `0xFF`. -/
def nonceSeed : List Nat := List.replicate 12 0xFF

/-- The byte slice returned by the `n`-th call to `Next()` (the generator is
mutated before returning, so call `n` returns `incLE` applied `n` times). -/
def nonceAfter (n : Nat) : List Nat := incLE^[n] nonceSeed

/-- Helper: `leEncode w k` is the `w`-byte little-endian encoding of `k` (mod `2^(8w)`). -/
def leEncode : Nat → Nat → List Nat
  | 0, _ => []
  | w + 1, k => k % 256 :: leEncode w (k / 256)

theorem incLE_leEncode (w k : Nat) : incLE (leEncode w k) = leEncode w (k + 1) := by
  induction w generalizing k with
  | zero => rfl
  | succ w ih =>
    have hmod : (k % 256 + 1) % 256 = (k + 1) % 256 := by omega
    simp only [leEncode, incLE, hmod]
    by_cases h : (k + 1) % 256 = 0
    · have hdiv : (k + 1) / 256 = k / 256 + 1 := by omega
      simp [h, ih, hdiv]
    · have hdiv : (k + 1) / 256 = k / 256 := by omega
      simp [h, hdiv]

theorem iterate_incLE_leEncode (w k n : Nat) :
    incLE^[n] (leEncode w k) = leEncode w (k + n) := by
  induction n generalizing k with
  | zero => rfl
  | succ n ih =>
    rw [Function.iterate_succ_apply, incLE_leEncode, ih]
    ring_nf

theorem leEncode_add_base (w k : Nat) :
    leEncode w (k + 2 ^ (8 * w)) = leEncode w k := by
  induction w generalizing k with
  | zero => rfl
  | succ w ih =>
    have hpow : 2 ^ (8 * (w + 1)) = 256 * 2 ^ (8 * w) := by ring
    simp only [leEncode, hpow]
    have h1 : (k + 256 * 2 ^ (8 * w)) % 256 = k % 256 := by omega
    have h2 : (k + 256 * 2 ^ (8 * w)) / 256 = k / 256 + 2 ^ (8 * w) := by omega
    rw [h1, h2, ih]

theorem nonceSeed_eq : nonceSeed = leEncode 12 (2 ^ 96 - 1) := by decide

/-- C1: the `n`-th call (`n ≥ 1`) to `IncreasingAEADNonceGenerator.Next`
returns the 12-byte little-endian encoding of `n - 1` (taken mod `2^96`, so in
particular call 1 returns twelve zero bytes and call 2 returns
`0x01` followed by eleven zero bytes), the generator having been seeded with
twelve `0xFF` bytes and incremented little-endian on each call. -/
theorem c1_nonce_sequence (n : Nat) (h : 1 ≤ n) :
    nonceAfter n = leEncode 12 (n - 1) := by
  unfold nonceAfter
  rw [nonceSeed_eq, iterate_incLE_leEncode]
  have h1 : 2 ^ 96 - 1 + n = (n - 1) + 2 ^ (8 * 12) := by
    have : (2 : Nat) ^ 96 = 2 ^ (8 * 12) := by norm_num
    omega
  rw [h1, leEncode_add_base]

theorem c1_nonce_sequence_witness :
    1 ≤ 2 ∧ nonceAfter 2 = leEncode 12 1 :=
  ⟨by decide, c1_nonce_sequence 2 (by decide)⟩

/-! ### Authenticated chunk codec (`AuthenticationReader` / `AuthenticationWriter`)

The byte stream is a `List Nat`; reading `n` bytes succeeds iff the list holds
at least `n` elements (`io.ReadFull` semantics).  The `Authenticator` interface
(`Overhead`, `Open`, `Seal`) is kept abstract: `opn` is `Open`; `sealAt i`
is the `i`-th call to `Seal` (the index models the mutable nonce-generator
state threaded through successive calls).  Error values are labelled by their
origin, matching the code's verbatim propagation of each underlying error. -/

/-- Model of `ChunkSizeDecoder` / `ChunkSizeEncoder`: `SizeBytes` plus `Decode`/`Encode`. -/
structure ChunkSizeCoder where
  sizeBytes : Nat
  decode : List Nat → Except Unit Nat
  encode : Nat → List Nat

/-- The `Authenticator` interface used by the codec. -/
structure Authenticator where
  overhead : Nat
  opn : List Nat → Except Unit (List Nat)
  sealAt : Nat → List Nat → List Nat

/-- Errors surfaced by `AuthenticationReader.ReadMultiBuffer`, labelled by
origin: short read (underlying I/O error), size-decode failure, `io.EOF`,
AEAD open failure. -/
inductive ReadErr
  | ioShort
  | decodeFail
  | eof
  | openFail
deriving DecidableEq

/-- Model of `AuthenticationReader.readSize`: read `SizeBytes` bytes, decode them.
Returns the decoded size and the remaining stream. -/
def readSize (d : ChunkSizeCoder) (input : List Nat) :
    Except ReadErr (Nat × List Nat) :=
  if input.length < d.sizeBytes then .error .ioShort
  else
    match d.decode (input.take d.sizeBytes) with
    | .error _ => .error .decodeFail
    | .ok size => .ok (size, input.drop d.sizeBytes)

/-- Model of `AuthenticationReader.ReadMultiBuffer`: read and decode the size; if it
equals the authenticator overhead return `io.EOF`; otherwise read exactly
`size` bytes, open them, and return the plaintext together with the rest of
the stream. -/
def ReadMultiBuffer (auth : Authenticator) (d : ChunkSizeCoder)
    (input : List Nat) : Except ReadErr (List Nat × List Nat) :=
  match readSize d input with
  | .error e => .error e
  | .ok (size, rest) =>
    if size = auth.overhead then .error .eof
    else if rest.length < size then .error .ioShort
    else
      match auth.opn (rest.take size) with
      | .error _ => .error .openFail
      | .ok plain => .ok (plain, rest.drop size)

/-- C2: `AuthenticationReader.ReadMultiBuffer` first reads
`sizeParser.SizeBytes()` bytes and decodes the frame size; a decoded size
equal to `auth.Overhead()` yields `io.EOF` with nothing further read;
otherwise exactly `size` further bytes are read and opened, the plaintext
being returned as the (one-buffer) result; a short read of the size or body,
a decode failure, or an AEAD open failure is returned as an error with no
buffer. -/
theorem c2_read_multibuffer (auth : Authenticator) (d : ChunkSizeCoder)
    (input : List Nat) :
    (input.length < d.sizeBytes → ReadMultiBuffer auth d input = .error .ioShort) ∧
    (d.sizeBytes ≤ input.length →
      (∀ e, d.decode (input.take d.sizeBytes) = .error e →
        ReadMultiBuffer auth d input = .error .decodeFail) ∧
      (∀ size, d.decode (input.take d.sizeBytes) = .ok size →
        (size = auth.overhead → ReadMultiBuffer auth d input = .error .eof) ∧
        (size ≠ auth.overhead →
          ((input.drop d.sizeBytes).length < size →
            ReadMultiBuffer auth d input = .error .ioShort) ∧
          (size ≤ (input.drop d.sizeBytes).length →
            (∀ plain, auth.opn ((input.drop d.sizeBytes).take size) = .ok plain →
              ReadMultiBuffer auth d input =
                .ok (plain, (input.drop d.sizeBytes).drop size)) ∧
            (∀ e, auth.opn ((input.drop d.sizeBytes).take size) = .error e →
              ReadMultiBuffer auth d input = .error .openFail))))) := by
  refine ⟨fun hshort => ?_, fun hlen => ⟨fun e he => ?_, fun size hdec => ?_⟩⟩
  · simp [ReadMultiBuffer, readSize, hshort]
  · simp [ReadMultiBuffer, readSize, Nat.not_lt.mpr hlen, he]
  · have hnotlt : ¬ input.length < d.sizeBytes := Nat.not_lt.mpr hlen
    refine ⟨fun hsz => ?_, fun hsz => ⟨fun hbody => ?_, fun hbody => ⟨fun plain hopn => ?_, fun e hopn => ?_⟩⟩⟩
    · simp [ReadMultiBuffer, readSize, hnotlt, hdec, hsz]
    · have hb : input.length - d.sizeBytes < size := by simpa using hbody
      simp [ReadMultiBuffer, readSize, hnotlt, hdec, hsz, hb]
    · have hb : size ≤ input.length - d.sizeBytes := by simpa using hbody
      simp [ReadMultiBuffer, readSize, hnotlt, hdec, hsz, Nat.not_lt.mpr hb, hopn]
    · have hb : size ≤ input.length - d.sizeBytes := by simpa using hbody
      simp [ReadMultiBuffer, readSize, hnotlt, hdec, hsz, Nat.not_lt.mpr hb, hopn]

/-- A concrete big-endian 2-byte size coder with a trivial authenticator, used
to witness the codec theorems at concrete inputs. -/
def testCoder : ChunkSizeCoder where
  sizeBytes := 2
  decode l := .ok (l.headD 0 * 256 + (l.drop 1).headD 0)
  encode n := [n / 256 % 256, n % 256]

/-- A concrete authenticator (overhead 1; open drops the final byte; seal
appends one byte recording the call index) used to witness the codec
theorems. -/
def testAuth : Authenticator where
  overhead := 1
  opn c := .ok (c.dropLast)
  sealAt i b := b ++ [i % 256]

theorem c2_read_multibuffer_witness :
    ReadMultiBuffer testAuth testCoder [0, 3, 10, 20, 30] = .ok ([10, 20], []) := by
  have h := (c2_read_multibuffer testAuth testCoder [0, 3, 10, 20, 30]).2
    (by decide)
  simpa [testCoder] using
    ((((h.2 3 (by rfl)).2 (by decide)).2 (by decide)).1 [10, 20] (by rfl))

/-- Model of `AuthenticationWriter.seal`: one frame is the encoded size
(`b.Len() + Overhead`, cast to `uint16`, hence mod `2^16`) followed by the
sealed chunk; `i` numbers this `Seal` call (the mutable nonce state). -/
def sealFrame (auth : Authenticator) (c : ChunkSizeCoder) (i : Nat)
    (b : List Nat) : List Nat :=
  c.encode ((b.length + auth.overhead) % 65536) ++ auth.sealAt i b

/-- The do-while loop of `AuthenticationWriter.writeStream`: read up to
`payloadSize` bytes of the remaining payload, seal them as one frame, and stop
once the payload is exhausted (`mb.IsEmpty()`, i.e. `mb.length ≤ payloadSize`
after the read).  `i` numbers the `Seal` calls.  The Go loop does not
terminate when `payloadSize = 0`; the model returns `[]` there, outside the
modelled domain (in the source `payloadSize = buf.Size − Overhead −
SizeBytes > 0`). -/
def writeStreamLoop (auth : Authenticator) (c : ChunkSizeCoder)
    (payloadSize i : Nat) (mb : List Nat) : List (List Nat) :=
  if payloadSize = 0 then []
  else if mb.length ≤ payloadSize then [sealFrame auth c i (mb.take payloadSize)]
  else
    sealFrame auth c i (mb.take payloadSize) ::
      writeStreamLoop auth c payloadSize (i + 1) (mb.drop payloadSize)
termination_by mb.length
decreasing_by
  simp only [List.length_drop]
  omega

/-- Model of `AuthenticationWriter.writeStream` on the concatenated payload of the
incoming `MultiBuffer` (stream mode reads across buffer boundaries, so only
the concatenation matters).  `bufSize` abstracts the buffer capacity
`buf.Size` (2048 in the source); the returned list holds the frames emitted,
in order. -/
def writeStream (auth : Authenticator) (c : ChunkSizeCoder) (bufSize : Nat)
    (mb : List Nat) : List (List Nat) :=
  writeStreamLoop auth c (bufSize - auth.overhead - c.sizeBytes) 0 mb

/-- Splitting a payload into chunks of `k` bytes, the last chunk possibly
shorter. -/
def chunksOf (k : Nat) (l : List Nat) : List (List Nat) :=
  if k = 0 then []
  else if l.length ≤ k then [l]
  else l.take k :: chunksOf k (l.drop k)
termination_by l.length
decreasing_by
  simp only [List.length_drop]
  omega

theorem writeStreamLoop_eq_chunksOf (auth : Authenticator) (c : ChunkSizeCoder)
    (k : Nat) (hk : 0 < k) (htr : k + auth.overhead < 65536) :
    ∀ (n : Nat) (mb : List Nat), mb.length ≤ n → ∀ (i : Nat),
      writeStreamLoop auth c k i mb =
        ((chunksOf k mb).enumFrom i).map
          (fun p => c.encode (p.2.length + auth.overhead) ++ auth.sealAt p.1 p.2) := by
  intro n
  induction n with
  | zero =>
    intro mb hle i
    have hnil : mb = [] := List.length_eq_zero.mp (Nat.le_zero.mp hle)
    subst hnil
    rw [writeStreamLoop, chunksOf]
    have hmod : auth.overhead % 65536 = auth.overhead :=
      Nat.mod_eq_of_lt (by omega)
    simp [Nat.pos_iff_ne_zero.mp hk, sealFrame, hmod, List.enumFrom]
  | succ n ih =>
    intro mb hle i
    by_cases hsmall : mb.length ≤ k
    · rw [writeStreamLoop, chunksOf]
      have htake : mb.take k = mb := List.take_of_length_le hsmall
      have hmod : (mb.length + auth.overhead) % 65536 = mb.length + auth.overhead :=
        Nat.mod_eq_of_lt (by omega)
      simp [Nat.pos_iff_ne_zero.mp hk, hsmall, sealFrame, htake, hmod, List.enumFrom]
    · rw [writeStreamLoop, chunksOf]
      have hdrop : (mb.drop k).length ≤ n := by
        simp only [List.length_drop]
        omega
      rw [ih (mb.drop k) hdrop (i + 1)]
      have hlen : (mb.take k).length = k := by
        simp only [List.length_take]
        omega
      have hmod : (k + auth.overhead) % 65536 = k + auth.overhead :=
        Nat.mod_eq_of_lt htr
      simp [Nat.pos_iff_ne_zero.mp hk, hsmall, sealFrame, hlen, hmod, List.enumFrom]

/-- C7: in stream mode `AuthenticationWriter` splits the payload into chunks
of exactly `buf.Size − auth.Overhead() − sizeParser.SizeBytes()` plaintext
bytes (the last chunk possibly shorter), seals each, and emits for each a
frame made of the encoded size (plaintext length plus overhead) followed by
the sealed bytes, in payload order (the `i`-th frame sealing the `i`-th
chunk).  The size bounds keep the `uint16` size cast lossless, as in the
source where `buf.Size = 2048`. -/
theorem c7_write_stream (auth : Authenticator) (c : ChunkSizeCoder)
    (bufSize : Nat) (mb : List Nat)
    (hpos : c.sizeBytes + auth.overhead < bufSize) (hbound : bufSize < 65536) :
    writeStream auth c bufSize mb =
      ((chunksOf (bufSize - auth.overhead - c.sizeBytes) mb).enum).map
        (fun p => c.encode (p.2.length + auth.overhead) ++ auth.sealAt p.1 p.2) := by
  unfold writeStream
  rw [writeStreamLoop_eq_chunksOf auth c (bufSize - auth.overhead - c.sizeBytes)
    (by omega) (by omega) mb.length mb le_rfl 0]
  rfl

theorem c7_write_stream_witness :
    writeStream testAuth testCoder 7 [1, 2, 3, 4, 5, 6] =
      [[0, 5, 1, 2, 3, 4, 0], [0, 3, 5, 6, 1]] := by
  rw [c7_write_stream testAuth testCoder 7 [1, 2, 3, 4, 5, 6]
    (by decide) (by decide)]
  rw [chunksOf, chunksOf]
  decide

/-! ### Mux client (`app/proxyman/mux`) -/

/-- Constant `maxTotal` from the mux package: hard ceiling on the sessions a single
client ever carries. -/
def maxTotal : Nat := 128

/-- Modelled from the spec: the mux `SessionManager` counters (the manager's
own source file is not part of the excerpt; §3 "Session (Mux)" specifies it).
`size` is the number of active sessions (`Size()`), `countEver` the total
ever allocated (`Count()`), `closed` the drained/closed state. -/
structure SessionManager where
  size : Nat
  countEver : Nat
  closed : Bool

/-- Modelled from the spec: `SessionManager.Allocate` fails on a
closed/drained manager and otherwise registers one new session, increasing
both counters. -/
def SessionManager.allocate (sm : SessionManager) : Option SessionManager :=
  if sm.closed then none
  else some { sm with size := sm.size + 1, countEver := sm.countEver + 1 }

/-- Modelled from the spec: closing one active session removes it from the
manager, leaving the total-ever count unchanged. -/
def SessionManager.closeOne (sm : SessionManager) : SessionManager :=
  { sm with size := sm.size - 1 }

/-- The mux `Client` state relevant to `Dispatch`: its session manager, the
configured concurrency, and the done latch. -/
structure Client where
  sessionManager : SessionManager
  concurrency : Nat
  done : Bool

/-- Model of `Client.Dispatch` (source): decline when `Size() ≥ concurrency` or
`Count() ≥ maxTotal`, when the done latch is set, or when allocation fails;
otherwise allocate a session and accept.  Returns the accept flag and the
updated client. -/
def Client.Dispatch (m : Client) : Bool × Client :=
  if m.sessionManager.size ≥ m.concurrency ∨ m.sessionManager.countEver ≥ maxTotal then
    (false, m)
  else if m.done then (false, m)
  else
    match m.sessionManager.allocate with
    | none => (false, m)
    | some sm => (true, { m with sessionManager := sm })

/-- Events touching one client's session bookkeeping: a `Dispatch` call, a
session ending, the done latch closing, the monitor closing the manager. -/
inductive ClientEvent
  | dispatch
  | sessionEnd
  | setDone
  | managerClose

/-- One step of the client state under an event. -/
def clientStep (m : Client) : ClientEvent → Client
  | .dispatch => (Client.Dispatch m).2
  | .sessionEnd => { m with sessionManager := m.sessionManager.closeOne }
  | .setDone => { m with done := true }
  | .managerClose =>
      { m with sessionManager := { m.sessionManager with closed := true } }

/-- A fresh client as built by `NewClient`: empty session manager, configured
concurrency, done latch open. -/
def newClient (concurrency : Nat) : Client :=
  { sessionManager := { size := 0, countEver := 0, closed := false }
    concurrency := concurrency
    done := false }

/-- The client state after a sequence of events on a fresh client. -/
def runClient (concurrency : Nat) (evs : List ClientEvent) : Client :=
  evs.foldl clientStep (newClient concurrency)

/-- The inductive invariant of a mux client. -/
def ClientInv (concurrency : Nat) (m : Client) : Prop :=
  m.concurrency = concurrency ∧
  m.sessionManager.size ≤ m.concurrency ∧
  m.sessionManager.size ≤ m.sessionManager.countEver ∧
  m.sessionManager.countEver ≤ maxTotal

theorem clientStep_inv (concurrency : Nat) (m : Client) (e : ClientEvent)
    (h : ClientInv concurrency m) : ClientInv concurrency (clientStep m e) := by
  obtain ⟨hc, hs, hsc, hcm⟩ := h
  cases e with
  | dispatch =>
    show ClientInv concurrency (Client.Dispatch m).2
    unfold Client.Dispatch SessionManager.allocate
    by_cases h1 : m.sessionManager.size ≥ m.concurrency ∨
        m.sessionManager.countEver ≥ maxTotal
    · rw [if_pos h1]; exact ⟨hc, hs, hsc, hcm⟩
    · rw [if_neg h1]
      by_cases h2 : m.done
      · rw [if_pos h2]; exact ⟨hc, hs, hsc, hcm⟩
      · rw [if_neg h2]
        by_cases h3 : m.sessionManager.closed
        · rw [if_pos h3]; exact ⟨hc, hs, hsc, hcm⟩
        · rw [if_neg h3]
          push_neg at h1
          exact ⟨hc, by simp; omega, by simp; omega, by simp; omega⟩
  | sessionEnd =>
    refine ⟨hc, ?_, ?_, hcm⟩ <;> simp [clientStep, SessionManager.closeOne] <;> omega
  | setDone => exact ⟨hc, hs, hsc, hcm⟩
  | managerClose => exact ⟨hc, hs, hsc, hcm⟩

theorem runClient_inv (concurrency : Nat) (evs : List ClientEvent) :
    ClientInv concurrency (runClient concurrency evs) := by
  have hstart : ClientInv concurrency (newClient concurrency) := by
    refine ⟨rfl, ?_, ?_, ?_⟩ <;> simp [newClient, maxTotal]
  rw [runClient]
  generalize newClient concurrency = m at hstart
  induction evs generalizing m with
  | nil => exact hstart
  | cons e t ih => exact ih _ (clientStep_inv concurrency m e hstart)

/-- C3: `Client.Dispatch` declines (returns `false`) whenever the session
manager's size is at least the configured concurrency, or the total-ever
session count is at least `maxTotal = 128`, or the done latch is set; and on
every reachable client state the active-session count stays at most
`min concurrency maxTotal` while the total-ever count never exceeds
`maxTotal`. -/
theorem c3_mux_session_bounds (concurrency : Nat) (evs : List ClientEvent) :
    (∀ m : Client,
      m.sessionManager.size ≥ m.concurrency ∨
        m.sessionManager.countEver ≥ maxTotal ∨ m.done = true →
      (Client.Dispatch m).1 = false) ∧
    (runClient concurrency evs).sessionManager.size ≤ min concurrency maxTotal ∧
    (runClient concurrency evs).sessionManager.countEver ≤ maxTotal := by
  obtain ⟨hc, hs, hsc, hcm⟩ := runClient_inv concurrency evs
  refine ⟨fun m h => ?_, ?_, hcm⟩
  · unfold Client.Dispatch
    rcases h with h | h | h
    · simp [Or.inl h]
    · simp [Or.inr h]
    · by_cases h1 : m.sessionManager.size ≥ m.concurrency ∨
          m.sessionManager.countEver ≥ maxTotal
      · simp [h1]
      · simp [h1, h]
  · rw [Nat.le_min]
    omega

theorem c3_mux_session_bounds_witness :
    (Client.Dispatch (runClient 1 [ClientEvent.dispatch])).1 = false ∧
    (runClient 1 [ClientEvent.dispatch]).sessionManager.size ≤ min 1 maxTotal := by
  have h := c3_mux_session_bounds 1 [ClientEvent.dispatch]
  exact ⟨h.1 _ (Or.inl (by decide)), h.2.1⟩

/-! ### Mux server (`mux.Server.Dispatch`) -/

/-- Network addresses as compared by the mux sentinel check. -/
inductive Address
  | domain (d : String)
  | ip (bytes : List Nat)
deriving DecidableEq

/-- A network destination: address and port. -/
structure Destination where
  address : Address
  port : Nat
deriving DecidableEq

/-- Constant `muxCoolAddress`: the sentinel domain address `v1.mux.cool`. -/
def muxCoolAddress : Address := .domain "v1.mux.cool"

/-- Constant `muxCoolPort`: the sentinel port `9527`. -/
def muxCoolPort : Nat := 9527

/-- Result of `mux.Server.Dispatch`: forwarded unchanged to the inner core
dispatcher, or a new `ServerWorker` created over a fresh ray. -/
inductive ServerDispatchResult
  | forwarded (dest : Destination)
  | newWorker
deriving DecidableEq

/-- Model of `mux.Server.Dispatch` (source): forward to the inner dispatcher unless
`dest.Address` equals the mux sentinel address — the port is not inspected. -/
def Server.Dispatch (dest : Destination) : ServerDispatchResult :=
  if dest.address ≠ muxCoolAddress then .forwarded dest
  else .newWorker

/-- C4 counterexample: the destination `v1.mux.cool:1234` differs from the
mux sentinel `v1.mux.cool:9527`, yet `Server.Dispatch` still creates a
`ServerWorker` for it — the code compares only the address, never the port,
so "exactly when dest equals the sentinel (address and port 9527)" fails. -/
theorem c4_counterexample :
    Server.Dispatch ⟨muxCoolAddress, 1234⟩ = .newWorker ∧
    (⟨muxCoolAddress, 1234⟩ : Destination) ≠ ⟨muxCoolAddress, muxCoolPort⟩ := by
  constructor
  · decide
  · decide

/-- C4 (amended): `mux.Server.Dispatch` creates a mux `ServerWorker` (and
returns the new ray) exactly when the destination's **address** equals
`v1.mux.cool` — the port is ignored; for every other destination it forwards
the call unchanged to the inner core dispatcher and returns its result. -/
theorem c4_server_dispatch (dest : Destination) :
    (Server.Dispatch dest = .newWorker ↔ dest.address = muxCoolAddress) ∧
    (dest.address ≠ muxCoolAddress → Server.Dispatch dest = .forwarded dest) := by
  unfold Server.Dispatch
  by_cases h : dest.address = muxCoolAddress <;> simp [h]

theorem c4_server_dispatch_witness :
    Server.Dispatch ⟨Address.ip [1, 2, 3, 4], 80⟩ =
      .forwarded ⟨Address.ip [1, 2, 3, 4], 80⟩ :=
  (c4_server_dispatch _).2 (by decide)

/-! ### Instance lifecycle (`core.Instance.Start`) -/

/-- A registered feature, as far as startup goes: an identifier and the
result its `Start()` call returns (`none` = nil, `some e` = error `e`). -/
structure Feature where
  id : Nat
  startResult : Option Nat
deriving DecidableEq

/-- The `Instance` state relevant to `Start`: the insertion-ordered feature
list and the running flag. -/
structure Instance where
  features : List Feature
  running : Bool

/-- The feature loop of `Instance.Start`: call `Start()` on each feature in
order, stopping at the first error.  Returns the features whose `Start()` was
called, in call order, and the error, if any. -/
def startLoop : List Feature → List Feature × Option Nat
  | [] => ([], none)
  | f :: rest =>
    match f.startResult with
    | some e => ([f], some e)
    | none => ((startLoop rest).1.cons f, (startLoop rest).2)

/-- Model of `Instance.Start` (source): set `running = true`, run the feature loop.
Returns the updated instance, the started features and the error. -/
def Instance.Start (s : Instance) : Instance × List Feature × Option Nat :=
  ({ s with running := true }, startLoop s.features)

theorem startLoop_all_ok (l : List Feature)
    (h : ∀ f ∈ l, f.startResult = none) : startLoop l = (l, none) := by
  induction l with
  | nil => rfl
  | cons f rest ih =>
    have hf := h f (by simp)
    have hrest := ih (fun g hg => h g (by simp [hg]))
    simp [startLoop, hf, hrest]

theorem startLoop_first_err (pre : List Feature) (f : Feature)
    (post : List Feature) (e : Nat) (hpre : ∀ g ∈ pre, g.startResult = none)
    (hf : f.startResult = some e) :
    startLoop (pre ++ f :: post) = (pre ++ [f], some e) := by
  induction pre with
  | nil => simp [startLoop, hf]
  | cons g rest ih =>
    have hg := hpre g (by simp)
    have hrest := ih (fun g' hg' => hpre g' (by simp [hg']))
    simp [startLoop, hg, hrest]

/-- C5: `Instance.Start` sets `running` to `true` and calls `Start()` on the
registered features in insertion order; if every feature starts cleanly it
returns nil having started them all, and if some feature errors first then
that error is returned, the features after it not being started. -/
theorem c5_instance_start (s : Instance) :
    (s.Start).1.running = true ∧
    ((∀ f ∈ s.features, f.startResult = none) →
      (s.Start).2 = (s.features, none)) ∧
    (∀ pre f post e, s.features = pre ++ f :: post →
      (∀ g ∈ pre, g.startResult = none) → f.startResult = some e →
      (s.Start).2 = (pre ++ [f], some e)) := by
  refine ⟨rfl, fun h => ?_, fun pre f post e hsplit hpre hf => ?_⟩
  · show startLoop s.features = (s.features, none)
    exact startLoop_all_ok s.features h
  · show startLoop s.features = (pre ++ [f], some e)
    rw [hsplit]
    exact startLoop_first_err pre f post e hpre hf

theorem c5_instance_start_witness :
    (Instance.Start ⟨[⟨0, none⟩, ⟨1, some 7⟩, ⟨2, none⟩], false⟩).1.running = true ∧
    (Instance.Start ⟨[⟨0, none⟩, ⟨1, some 7⟩, ⟨2, none⟩], false⟩).2 =
      ([⟨0, none⟩, ⟨1, some 7⟩], some 7) := by
  have h := c5_instance_start ⟨[⟨0, none⟩, ⟨1, some 7⟩, ⟨2, none⟩], false⟩
  exact ⟨h.1, h.2.2 [⟨0, none⟩] ⟨1, some 7⟩ [⟨2, none⟩] 7 rfl (by decide) rfl⟩

/-! ### Socks server policy (`proxy/socks.Server.policy`) -/

/-- The timeout block of a policy (durations in seconds). -/
structure PolicyTimeouts where
  handshake : Nat
  connectionIdle : Nat
  uplinkOnly : Nat
  downlinkOnly : Nat
deriving DecidableEq

/-- A user-level policy. -/
structure Policy where
  timeouts : PolicyTimeouts
deriving DecidableEq

/-- The socks `ServerConfig` fields read by `policy()`: the user level and
the legacy `Timeout` (seconds). -/
structure SocksServerConfig where
  userLevel : Nat
  timeout : Nat
deriving DecidableEq

/-- Model of `socks.Server.policy` (source): fetch `PolicyManager.ForLevel(UserLevel)`;
when the legacy `Timeout` is positive and `UserLevel == 0`, overwrite
`Timeouts.ConnectionIdle` with `Timeout` seconds. -/
def Server.policy (forLevel : Nat → Policy) (config : SocksServerConfig) :
    Policy :=
  let p := forLevel config.userLevel
  if 0 < config.timeout ∧ config.userLevel = 0 then
    { p with timeouts := { p.timeouts with connectionIdle := config.timeout } }
  else p

/-- C8: the effective policy equals `PolicyManager.ForLevel(config.UserLevel)`
except that, when `config.UserLevel == 0` and `config.Timeout > 0`, the
`Timeouts.ConnectionIdle` field is replaced by `config.Timeout` seconds, all
other fields unchanged. -/
theorem c8_socks_policy (forLevel : Nat → Policy) (config : SocksServerConfig) :
    (¬(config.userLevel = 0 ∧ 0 < config.timeout) →
      Server.policy forLevel config = forLevel config.userLevel) ∧
    (config.userLevel = 0 → 0 < config.timeout →
      (Server.policy forLevel config).timeouts.connectionIdle = config.timeout ∧
      (Server.policy forLevel config).timeouts.handshake =
        (forLevel config.userLevel).timeouts.handshake ∧
      (Server.policy forLevel config).timeouts.uplinkOnly =
        (forLevel config.userLevel).timeouts.uplinkOnly ∧
      (Server.policy forLevel config).timeouts.downlinkOnly =
        (forLevel config.userLevel).timeouts.downlinkOnly) := by
  constructor
  · intro h
    rw [Server.policy, if_neg (by tauto)]
  · intro h0 ht
    rw [Server.policy, if_pos ⟨ht, h0⟩]
    exact ⟨rfl, rfl, rfl, rfl⟩

theorem c8_socks_policy_witness :
    Server.policy (fun _ => ⟨⟨4, 300, 2, 5⟩⟩) ⟨0, 42⟩ = ⟨⟨4, 42, 2, 5⟩⟩ := by
  have h := (c8_socks_policy (fun _ => ⟨⟨4, 300, 2, 5⟩⟩) ⟨0, 42⟩).2 rfl (by decide)
  obtain ⟨h1, h2, h3, h4⟩ := h
  have : (Server.policy (fun _ => ⟨⟨4, 300, 2, 5⟩⟩) ⟨0, 42⟩).timeouts =
      ⟨4, 42, 2, 5⟩ := by
    cases hq : (Server.policy (fun _ => ⟨⟨4, 300, 2, 5⟩⟩) ⟨0, 42⟩).timeouts
    simp_all
  cases hp : Server.policy (fun _ => ⟨⟨4, 300, 2, 5⟩⟩) ⟨0, 42⟩
  simp_all

/-! ### Inbound handler manager (`app/proxyman/inbound.Manager`) -/

/-- An inbound handler: an identifier and its (possibly empty) tag. -/
structure InboundHandler where
  id : Nat
  tag : String
deriving DecidableEq

/-- The inbound `Manager` state: ordered handler list and the tag map. -/
structure HandlerManager where
  handlers : List InboundHandler
  taggedHandlers : String → Option InboundHandler

/-- Model of `Manager.AddHandler` (source): append to the handler list; when the tag
is non-empty (`len(tag) > 0`, i.e. `tag ≠ ""`), point the tag map at this
handler, overwriting any previous entry.  Always returns nil (`none`). -/
def AddHandler (m : HandlerManager) (h : InboundHandler) :
    HandlerManager × Option Nat :=
  ({ handlers := m.handlers ++ [h]
     taggedHandlers := fun t =>
       if h.tag ≠ "" ∧ t = h.tag then some h else m.taggedHandlers t },
   none)

/-- Model of `Manager.GetHandler` (source): look the tag up in the map; a missing tag
is a "handler not found" error. -/
def GetHandler (m : HandlerManager) (tag : String) :
    Except Unit InboundHandler :=
  match m.taggedHandlers tag with
  | none => .error ()
  | some h => .ok h

/-- A fresh manager as built by `New`. -/
def emptyManager : HandlerManager :=
  { handlers := [], taggedHandlers := fun _ => none }

/-- The manager after a sequence of `AddHandler` calls on a fresh manager. -/
def runAdds (hs : List InboundHandler) : HandlerManager :=
  hs.foldl (fun m h => (AddHandler m h).1) emptyManager

theorem foldl_add_handlers (hs : List InboundHandler) (m : HandlerManager) :
    (hs.foldl (fun m h => (AddHandler m h).1) m).handlers = m.handlers ++ hs := by
  induction hs generalizing m with
  | nil => simp
  | cons h t ih =>
    rw [List.foldl_cons, ih]
    simp [AddHandler]

theorem runAdds_tagged_find (hs : List InboundHandler) (t : String)
    (ht : t ≠ "") :
    (runAdds hs).taggedHandlers t = hs.reverse.find? (fun h => h.tag == t) := by
  rw [runAdds]
  induction hs using List.reverseRecOn with
  | nil => rfl
  | append_singleton hs h ih =>
    rw [List.foldl_append, List.foldl_cons, List.foldl_nil, List.reverse_append]
    simp only [List.reverse_singleton, List.singleton_append, List.find?_cons]
    by_cases heq : h.tag = t
    · subst heq
      simp [AddHandler, ht]
    · have hbeq : (h.tag == t) = false := by simp [heq]
      have hcond : ¬(h.tag ≠ "" ∧ t = h.tag) := fun hc => heq hc.2.symm
      simp only [hbeq, AddHandler]
      rw [if_neg hcond]
      exact ih

theorem runAdds_tagged_none (hs : List InboundHandler) (t : String)
    (h : ∀ g ∈ hs, g.tag ≠ t) : (runAdds hs).taggedHandlers t = none := by
  rw [runAdds]
  induction hs using List.reverseRecOn with
  | nil => rfl
  | append_singleton hs g ih =>
    rw [List.foldl_append, List.foldl_cons, List.foldl_nil]
    have hg : g.tag ≠ t := h g (by simp)
    have hcond : ¬(g.tag ≠ "" ∧ t = g.tag) := fun hc => hg hc.2.symm
    simp only [AddHandler]
    rw [if_neg hcond]
    exact ih (fun g' hg' => h g' (by simp [hg']))

/-- C9: folding `AddHandler` over a fresh inbound `Manager` appends every
handler to the ordered list (so two handlers sharing a tag both remain in
it); the tag map sends each non-empty tag to the **last**-added handler
carrying it; `AddHandler` always returns nil; and `GetHandler` on a tag that
no added handler carries returns a not-found error. -/
theorem c9_inbound_manager (hs : List InboundHandler) :
    (∀ m h, (AddHandler m h).2 = none) ∧
    (runAdds hs).handlers = hs ∧
    (∀ t, t ≠ "" → (runAdds hs).taggedHandlers t =
      hs.reverse.find? (fun h => h.tag == t)) ∧
    (∀ t, (∀ g ∈ hs, g.tag ≠ t) →
      GetHandler (runAdds hs) t = .error ()) := by
  refine ⟨fun m h => rfl, ?_, fun t ht => runAdds_tagged_find hs t ht,
    fun t ht => ?_⟩
  · rw [runAdds]
    simpa [emptyManager] using foldl_add_handlers hs emptyManager
  · rw [GetHandler, runAdds_tagged_none hs t ht]

theorem c9_inbound_manager_witness :
    (runAdds [⟨0, "a"⟩, ⟨1, "a"⟩]).handlers = [⟨0, "a"⟩, ⟨1, "a"⟩] ∧
    (runAdds [⟨0, "a"⟩, ⟨1, "a"⟩]).taggedHandlers "a" = some ⟨1, "a"⟩ ∧
    GetHandler (runAdds [⟨0, "a"⟩, ⟨1, "a"⟩]) "b" = .error () := by
  have h := c9_inbound_manager [⟨0, "a"⟩, ⟨1, "a"⟩]
  refine ⟨h.2.1, ?_, h.2.2.2 "b" (by decide)⟩
  rw [h.2.2.1 "a" (by decide)]
  decide

/-! ### Shadowsocks request codec (`proxy/shadowsocks`)

The cipher layer is abstracted: `ReadTCPSession` is modelled over the
*decrypted* byte stream (IV reading and `NewDecryptionReader` construction
are outside the parsing logic), `DecodeUDPPacket` over the decrypted packet
(after the in-place `Cipher.DecodePacket`), and the
`HeaderKeyGenerator(key, iv)` authenticator is the abstract function `mac`
(output length `AuthSize`).  Buffer accesses that would panic in Go (UDP
parsing has no bounds checks) are modelled as `.error .shortBuffer`. -/

/-- The `Account.OneTimeAuth` setting. -/
inductive OTASetting
  | auto
  | disabled
  | enabled
deriving DecidableEq

/-- Constant `AuthSize`: byte length of the OTA HMAC tail.  The constant's definition
is not part of the excerpt (10 in the full repository); no claim depends on
its value. -/
def AuthSize : Nat := 10

/-- The `MemoryAccount` fields the request codec reads, with the derived
header authenticator. -/
structure SSAccount where
  isAEAD : Bool
  ota : OTASetting
  mac : List Nat → List Nat

/-- A parsed Shadowsocks address. -/
inductive SSAddress
  | ipv4 (bytes : List Nat)
  | ipv6 (bytes : List Nat)
  | domain (bytes : List Nat)
deriving DecidableEq

/-- The parsed request header (`Version = 1`; the command is fixed by the
entry point): the `OneTimeAuth` option bit, the address (`none` while still
unset) and the port. -/
structure SSRequest where
  oneTimeAuth : Bool
  address : Option SSAddress
  port : Nat
deriving DecidableEq

/-- Errors of the request codec, labelled by the `newError` site. -/
inductive SSErr
  | readAddrType
  | otaOnServerOff
  | otaOffServerOn
  | readIPv4
  | readIPv6
  | readDomainLen
  | readDomain
  | readPort
  | readAuthTail
  | invalidOTA
  | invalidAddress
  | unknownAddrType (t : Nat)
  | shortBuffer
deriving DecidableEq

/-- The address-type switch of `ReadTCPSession`: dispatch on the low nibble
and read the address bytes; an unrecognized type reads nothing, validity
being checked only after OTA verification.  Returns the parsed address
(`none` for an unrecognized type), the bytes appended to the header buffer,
and the rest of the stream.  (For a zero-length domain the Go code's
`BytesFrom(-0)` quirk yields a junk address value; the claims do not inspect
the address value, and the model takes the empty domain.) -/
def parseTCPAddr (addrType : Nat) (br : List Nat) :
    Except SSErr (Option SSAddress × List Nat × List Nat) :=
  if addrType = 1 then
    if br.length < 4 then .error .readIPv4
    else .ok (some (.ipv4 (br.take 4)), br.take 4, br.drop 4)
  else if addrType = 4 then
    if br.length < 16 then .error .readIPv6
    else .ok (some (.ipv6 (br.take 16)), br.take 16, br.drop 16)
  else if addrType = 3 then
    match br with
    | [] => .error .readDomainLen
    | dlen :: br1 =>
      if br1.length < dlen then .error .readDomain
      else .ok (some (.domain (br1.take dlen)), dlen :: br1.take dlen, br1.drop dlen)
  else .ok (none, [], br)

/-- Model of `ReadTCPSession` over the decrypted stream: read the address-type byte;
for non-AEAD ciphers take bit `0x10` as the OTA flag and enforce the account
policy; parse the address by low nibble; read the 2-byte big-endian port;
when the OTA flag is set read `AuthSize` MAC bytes and verify them over the
header (address-type byte, address bytes, port bytes); finally reject a still
unset address.  Returns the request and the remaining stream. -/
def ReadTCPSession (acc : SSAccount) (br0 : List Nat) :
    Except SSErr (SSRequest × List Nat) :=
  match br0 with
  | [] => .error .readAddrType
  | b0 :: br1 =>
    let otaFlag : Bool := !acc.isAEAD && ((b0 &&& 0x10) == 0x10)
    if !acc.isAEAD && otaFlag && (acc.ota == .disabled) then
      .error .otaOnServerOff
    else if !acc.isAEAD && !otaFlag && (acc.ota == .enabled) then
      .error .otaOffServerOn
    else
      match parseTCPAddr (b0 &&& 0x0F) br1 with
      | .error e => .error e
      | .ok (addr, hdrBytes, br2) =>
        if br2.length < 2 then .error .readPort
        else
          let portBytes := br2.take 2
          let br3 := br2.drop 2
          let port := portBytes.headD 0 * 256 + (portBytes.drop 1).headD 0
          let header := b0 :: (hdrBytes ++ portBytes)
          let req : SSRequest := ⟨otaFlag, addr, port⟩
          if otaFlag then
            if br3.length < AuthSize then .error .readAuthTail
            else if acc.mac header ≠ br3.take AuthSize then .error .invalidOTA
            else if addr.isNone then .error .invalidAddress
            else .ok (req, br3.drop AuthSize)
          else if addr.isNone then .error .invalidAddress
          else .ok (req, br3)

/-- Model of `DecodeUDPPacket` over the decrypted packet: for non-AEAD ciphers take
bit `0x10` of the first byte as the OTA flag, enforce the account policy,
then (flag set) verify the `AuthSize`-byte MAC tail over the rest and trim
it; parse address type, address and port; the remainder is the payload.
Unlike the TCP path an unrecognized address type is an immediate error.
(When the packet is shorter than the MAC the Go index arithmetic goes
negative; such packets fail the MAC comparison or panic, and the model
reports an error on them as well.) -/
def DecodeUDPPacket (acc : SSAccount) (payload0 : List Nat) :
    Except SSErr (SSRequest × List Nat) :=
  match payload0 with
  | [] => .error .shortBuffer
  | b0 :: _ =>
    let otaFlag : Bool := !acc.isAEAD && ((b0 &&& 0x10) == 0x10)
    if !acc.isAEAD && otaFlag && (acc.ota == .disabled) then
      .error .otaOnServerOff
    else if !acc.isAEAD && !otaFlag && (acc.ota == .enabled) then
      .error .otaOffServerOn
    else
      let step1 : Except SSErr (List Nat) :=
        if otaFlag then
          let payloadLen := payload0.length - AuthSize
          if acc.mac (payload0.take payloadLen) ≠ payload0.drop payloadLen then
            .error .invalidOTA
          else .ok (payload0.take payloadLen)
        else .ok payload0
      match step1 with
      | .error e => .error e
      | .ok payload1 =>
        let addrType := b0 &&& 0x0F
        let rest0 := payload1.drop 1
        let parsed : Except SSErr (SSAddress × List Nat) :=
          if addrType = 1 then
            if rest0.length < 4 then .error .shortBuffer
            else .ok (.ipv4 (rest0.take 4), rest0.drop 4)
          else if addrType = 4 then
            if rest0.length < 16 then .error .shortBuffer
            else .ok (.ipv6 (rest0.take 16), rest0.drop 16)
          else if addrType = 3 then
            match rest0 with
            | [] => .error .shortBuffer
            | dlen :: r1 =>
              if r1.length < dlen then .error .shortBuffer
              else .ok (.domain (r1.take dlen), r1.drop dlen)
          else .error (.unknownAddrType addrType)
        match parsed with
        | .error e => .error e
        | .ok (addr, rest1) =>
          if rest1.length < 2 then .error .shortBuffer
          else
            .ok (⟨otaFlag, some addr, rest1.headD 0 * 256 + (rest1.drop 1).headD 0⟩,
              rest1.drop 2)

theorem readTCP_ok_flag (acc : SSAccount) (b0 : Nat) (br1 : List Nat)
    (req : SSRequest) (rest : List Nat)
    (hok : ReadTCPSession acc (b0 :: br1) = .ok (req, rest)) :
    req.oneTimeAuth = (!acc.isAEAD && ((b0 &&& 0x10) == 0x10)) ∧
    (!acc.isAEAD && (!acc.isAEAD && ((b0 &&& 0x10) == 0x10)) &&
      (acc.ota == .disabled)) = false ∧
    (!acc.isAEAD && !(!acc.isAEAD && ((b0 &&& 0x10) == 0x10)) &&
      (acc.ota == .enabled)) = false := by
  simp only [ReadTCPSession] at hok
  split at hok
  · exact absurd hok (by simp)
  · split at hok
    · exact absurd hok (by simp)
    · rename_i hg1 hg2
      refine ⟨?_, by simpa using hg1, by simpa using hg2⟩
      split at hok
      · exact absurd hok (by simp)
      · split at hok
        · exact absurd hok (by simp)
        · split at hok
          · split at hok
            · exact absurd hok (by simp)
            · split at hok
              · exact absurd hok (by simp)
              · split at hok
                · exact absurd hok (by simp)
                · obtain ⟨h1, -⟩ := Prod.mk.injEq .. ▸ (Except.ok.injEq .. ▸ hok)
                  rw [← h1]
          · split at hok
            · exact absurd hok (by simp)
            · obtain ⟨h1, -⟩ := Prod.mk.injEq .. ▸ (Except.ok.injEq .. ▸ hok)
              rw [← h1]

theorem decodeUDP_ok_flag (acc : SSAccount) (b0 : Nat) (p : List Nat)
    (req : SSRequest) (rest : List Nat)
    (hok : DecodeUDPPacket acc (b0 :: p) = .ok (req, rest)) :
    req.oneTimeAuth = (!acc.isAEAD && ((b0 &&& 0x10) == 0x10)) ∧
    (!acc.isAEAD && (!acc.isAEAD && ((b0 &&& 0x10) == 0x10)) &&
      (acc.ota == .disabled)) = false ∧
    (!acc.isAEAD && !(!acc.isAEAD && ((b0 &&& 0x10) == 0x10)) &&
      (acc.ota == .enabled)) = false := by
  simp only [DecodeUDPPacket] at hok
  split at hok
  · exact absurd hok (by simp)
  · split at hok
    · exact absurd hok (by simp)
    · rename_i hg1 hg2
      refine ⟨?_, by simpa using hg1, by simpa using hg2⟩
      split at hok
      · exact absurd hok (by simp)
      · split at hok
        · exact absurd hok (by simp)
        · split at hok
          · exact absurd hok (by simp)
          · obtain ⟨h1, -⟩ := Prod.mk.injEq .. ▸ (Except.ok.injEq .. ▸ hok)
            rw [← h1]

/-- C6: for every non-AEAD account, a request accepted by `ReadTCPSession`
carries the `OneTimeAuth` option set when the account setting is Enabled and
clear when it is Disabled, and an input whose OTA flag conflicts with the
account setting is rejected with an error; the same holds for
`DecodeUDPPacket`. -/
theorem c6_ota_policy (acc : SSAccount) (haead : acc.isAEAD = false) :
    (∀ br req rest, ReadTCPSession acc br = .ok (req, rest) →
      (acc.ota = .enabled → req.oneTimeAuth = true) ∧
      (acc.ota = .disabled → req.oneTimeAuth = false)) ∧
    (∀ p req rest, DecodeUDPPacket acc p = .ok (req, rest) →
      (acc.ota = .enabled → req.oneTimeAuth = true) ∧
      (acc.ota = .disabled → req.oneTimeAuth = false)) ∧
    (∀ b0 br, ((b0 &&& 0x10) == 0x10) = true → acc.ota = .disabled →
      ReadTCPSession acc (b0 :: br) = .error .otaOnServerOff) ∧
    (∀ b0 br, ((b0 &&& 0x10) == 0x10) = false → acc.ota = .enabled →
      ReadTCPSession acc (b0 :: br) = .error .otaOffServerOn) ∧
    (∀ b0 p, ((b0 &&& 0x10) == 0x10) = true → acc.ota = .disabled →
      DecodeUDPPacket acc (b0 :: p) = .error .otaOnServerOff) ∧
    (∀ b0 p, ((b0 &&& 0x10) == 0x10) = false → acc.ota = .enabled →
      DecodeUDPPacket acc (b0 :: p) = .error .otaOffServerOn) := by
  refine ⟨?_, ?_, ?_, ?_, ?_, ?_⟩
  · rintro (_ | ⟨b0, br1⟩) req rest hok
    · exact absurd hok (by simp [ReadTCPSession])
    · obtain ⟨hflag, hg1, hg2⟩ := readTCP_ok_flag acc b0 br1 req rest hok
      constructor
      · intro hen
        rw [hflag]
        simp only [haead, hen] at hg1 hg2 ⊢
        revert hg2
        cases (b0 &&& 0x10) == 0x10 <;> simp
      · intro hdis
        rw [hflag]
        simp only [haead, hdis] at hg1 hg2 ⊢
        revert hg1
        cases (b0 &&& 0x10) == 0x10 <;> simp
  · rintro (_ | ⟨b0, p1⟩) req rest hok
    · exact absurd hok (by simp [DecodeUDPPacket])
    · obtain ⟨hflag, hg1, hg2⟩ := decodeUDP_ok_flag acc b0 p1 req rest hok
      constructor
      · intro hen
        rw [hflag]
        simp only [haead, hen] at hg1 hg2 ⊢
        revert hg2
        cases (b0 &&& 0x10) == 0x10 <;> simp
      · intro hdis
        rw [hflag]
        simp only [haead, hdis] at hg1 hg2 ⊢
        revert hg1
        cases (b0 &&& 0x10) == 0x10 <;> simp
  · intro b0 br hbit hdis
    simp [ReadTCPSession, haead, hbit, hdis]
  · intro b0 br hbit hen
    simp [ReadTCPSession, haead, hbit, hen]
  · intro b0 p hbit hdis
    simp [DecodeUDPPacket, haead, hbit, hdis]
  · intro b0 p hbit hen
    simp [DecodeUDPPacket, haead, hbit, hen]

/-- A concrete non-AEAD account (OTA enabled, constant MAC) used to witness
the Shadowsocks theorems. -/
def testAccount : SSAccount where
  isAEAD := false
  ota := .enabled
  mac := fun _ => List.replicate AuthSize 0

theorem c6_ota_policy_witness :
    ReadTCPSession testAccount [0] = .error .otaOffServerOn := by
  have h := c6_ota_policy testAccount rfl
  exact h.2.2.2.1 0 [] (by decide) rfl

/-- C10: on an input whose address-type nibble is not 1, 3 or 4,
`ReadTCPSession` does not fail at the address branch: it never returns a
request, and — when the OTA policy admits the input — a stream too short for
the port yields the port read error; with the full port read, the flag clear
case reaches the final "invalid remote address." error, while the flag set
case first reads and verifies the `AuthSize` MAC bytes over the header (a
mismatch is reported as invalid OTA, a short tail as its read error) and only
afterwards reports "invalid remote address.". -/
theorem c10_unknown_addr_type (acc : SSAccount) (b0 : Nat) (br1 : List Nat)
    (ht1 : b0 &&& 0x0F ≠ 1) (ht3 : b0 &&& 0x0F ≠ 3) (ht4 : b0 &&& 0x0F ≠ 4) :
    (∀ req rest, ReadTCPSession acc (b0 :: br1) ≠ .ok (req, rest)) ∧
    ((!acc.isAEAD && (!acc.isAEAD && ((b0 &&& 0x10) == 0x10)) &&
        (acc.ota == .disabled)) = false →
     (!acc.isAEAD && !(!acc.isAEAD && ((b0 &&& 0x10) == 0x10)) &&
        (acc.ota == .enabled)) = false →
      (br1.length < 2 → ReadTCPSession acc (b0 :: br1) = .error .readPort) ∧
      (2 ≤ br1.length →
        ((!acc.isAEAD && ((b0 &&& 0x10) == 0x10)) = false →
          ReadTCPSession acc (b0 :: br1) = .error .invalidAddress) ∧
        ((!acc.isAEAD && ((b0 &&& 0x10) == 0x10)) = true →
          ((br1.drop 2).length < AuthSize →
            ReadTCPSession acc (b0 :: br1) = .error .readAuthTail) ∧
          (AuthSize ≤ (br1.drop 2).length →
            (acc.mac (b0 :: br1.take 2) ≠ (br1.drop 2).take AuthSize →
              ReadTCPSession acc (b0 :: br1) = .error .invalidOTA) ∧
            (acc.mac (b0 :: br1.take 2) = (br1.drop 2).take AuthSize →
              ReadTCPSession acc (b0 :: br1) = .error .invalidAddress))))) := by
  have hparse : parseTCPAddr (b0 &&& 0x0F) br1 = .ok (none, [], br1) := by
    rw [parseTCPAddr.eq_def, if_neg ht1, if_neg ht4, if_neg ht3]
  constructor
  · intro req rest h
    simp only [ReadTCPSession, hparse] at h
    repeat' split at h
    all_goals simp_all
  · intro hg1 hg2
    refine ⟨fun hlt => ?_, fun hge => ⟨fun hflag => ?_, fun hflag => ⟨fun htl => ?_,
      fun htl => ⟨fun hmac => ?_, fun hmac => ?_⟩⟩⟩⟩
    · cases hA : acc.isAEAD <;> cases hO : acc.ota <;>
        simp_all [ReadTCPSession, hparse]
    · have hge' := Nat.not_lt.mpr hge
      cases hA : acc.isAEAD <;> cases hO : acc.ota <;>
        simp_all [ReadTCPSession, hparse]
    · have hge' := Nat.not_lt.mpr hge
      have htl1 : br1.length - 2 < AuthSize := by simpa using htl
      cases hA : acc.isAEAD <;> cases hO : acc.ota <;>
        simp_all [ReadTCPSession, hparse]
    · have hge' := Nat.not_lt.mpr hge
      have htl1 : ¬(br1.length - 2 < AuthSize) := by
        simp only [List.length_drop] at htl
        omega
      cases hA : acc.isAEAD <;> cases hO : acc.ota <;>
        simp_all [ReadTCPSession, hparse] <;>
        rw [if_neg (by omega), if_neg (by omega)]
    · have hge' := Nat.not_lt.mpr hge
      have htl1 : ¬(br1.length - 2 < AuthSize) := by
        simp only [List.length_drop] at htl
        omega
      cases hA : acc.isAEAD <;> cases hO : acc.ota <;>
        simp_all [ReadTCPSession, hparse] <;>
        rw [if_neg (by omega), if_neg (by omega)]

theorem c10_unknown_addr_type_witness :
    ReadTCPSession testAccount (0x10 :: ([0, 80] ++ List.replicate 10 0)) =
      .error .invalidAddress := by
  have h := c10_unknown_addr_type testAccount 0x10 ([0, 80] ++ List.replicate 10 0)
    (by decide) (by decide) (by decide)
  exact ((((h.2 (by decide) (by decide)).2 (by decide)).2 (by decide)).2
    (by decide)).2 (by decide)

end V2Ray
